import Mathlib

/-!
Verification of the `micplot` charting module (`src/micplot.py`).

The module is embedded shallowly:

* a pandas `Series` becomes a list of `(label, value)` pairs over `ℚ`,
  together with a flag recording whether the index is a `DatetimeIndex`;
* a pandas `DataFrame` becomes a row index plus a list of named columns;
* matplotlib/seaborn are external collaborators: rendering calls are
  recorded as data (which series, colors and label positions were handed
  to the backend), never executed;
* Python exceptions become an `Except PyErr` result;
* Python list indexing (negative indices, `IndexError`) and pandas
  `.loc[label] = v` assignment (overwrite an existing label, append a
  missing one) are modelled explicitly.

Numeric values use `ℚ`; `math.isclose` is embedded with its documented
default semantics (relative tolerance `1e-9`, absolute tolerance `0`).
-/

namespace Micplot

/-- Color tags used by the module: `'lightgray'` (neutral), the module-level
`HIGHLIGHT_COLOR` (`'purple'`), and `'gray'` (the waterfall total bar). -/
inductive Color where
  | lightgray
  | purple
  | gray
  deriving DecidableEq, Repr

/-- The process-wide highlight color constant (`HIGHLIGHT_COLOR = 'purple'`). -/
def HIGHLIGHT_COLOR : Color := Color.purple

/-- Python exception classes that the module (or pandas, during its calls)
can raise. -/
inductive PyErr where
  | typeError
  | valueError
  | indexError
  | indexingError
  | attributeError
  | notImplementedError
  deriving DecidableEq, Repr

/-- A pandas `Series`: ordered `(index label, value)` entries, plus whether
the index is a `DatetimeIndex`. -/
structure PSeries where
  entries : List (String × ℚ)
  timeIndex : Bool
  deriving DecidableEq, Repr

/-- The values of a series, in index order. -/
def PSeries.vals (s : PSeries) : List ℚ := s.entries.map Prod.snd

/-- A pandas `DataFrame`: a shared row index (with a `DatetimeIndex` flag)
and named columns of values.  Well-formed frames have every column of the
same length as the index. -/
structure PFrame where
  index : List String
  timeIndex : Bool
  cols : List (String × List ℚ)
  deriving DecidableEq, Repr

/-- The input accepted by the module: a `Series` or a `DataFrame`. -/
inductive PData where
  | series (s : PSeries)
  | frame (f : PFrame)
  deriving DecidableEq, Repr

/-- Python `len(data)`: number of entries of a series, number of rows of a
frame. -/
def PData.len : PData → ℕ
  | .series s => s.entries.length
  | .frame f => f.index.length

/-- Whether `data.index` is a `pd.DatetimeIndex`. -/
def PData.isTime : PData → Bool
  | .series s => s.timeIndex
  | .frame f => f.timeIndex

/-- `math.isclose(a, b)` with the default tolerances (`rel_tol=1e-9`,
`abs_tol=0.0`): `abs(a-b) <= max(rel_tol * max(abs(a), abs(b)), abs_tol)`. -/
def isclose (a b : ℚ) : Bool :=
  decide (|a - b| ≤ (1 / 1000000000) * max |a| |b|)

/-- `is_percentage_series`: all values between 0 and 1 (inclusive, as
pandas `Series.between`) and the sum close to 1. -/
def is_percentage_series (vals : List ℚ) : Bool :=
  vals.all (fun v => decide (0 ≤ v) && decide (v ≤ 1)) && isclose vals.sum 1

/-- `pick_plottype`: chooses the plot kind from the shape and content of the
data (time index first, then series vs. frame). -/
def pick_plottype (data : PData) : String :=
  if data.isTime then
    if data.len < 10 then "bar_timeseries" else "line_timeseries"
  else
    match data with
    | .series s => if is_percentage_series s.vals then "waterfall" else "bar"
    | .frame f =>
        if f.cols.all (fun c => is_percentage_series c.2) then
          "composition_comparison"
        else "scatter"

/-- The selector exactly as the specification words it (§4.1), rules in
order: a time axis gives `bar_timeseries` below 10 points and
`line_timeseries` otherwise; a single series whose values all lie in `[0,1]`
and sum to 1 within relative tolerance `1e-9` gives `waterfall`, else `bar`;
a multi-column table gives `composition_comparison` when every column
independently passes the same percentage test, else `scatter`. -/
def select_kind_spec (data : PData) : String :=
  if data.isTime then
    if data.len < 10 then "bar_timeseries" else "line_timeseries"
  else
    match data with
    | .series s =>
        if decide (∀ v ∈ s.vals, 0 ≤ v ∧ v ≤ 1) &&
            decide (|s.vals.sum - 1| ≤ (1 / 1000000000) * max |s.vals.sum| 1) then
          "waterfall"
        else "bar"
    | .frame f =>
        if f.cols.all (fun c =>
            decide (∀ v ∈ c.2, 0 ≤ v ∧ v ≤ 1) &&
            decide (|c.2.sum - 1| ≤ (1 / 1000000000) * max |c.2.sum| 1)) then
          "composition_comparison"
        else "scatter"

theorem is_percentage_series_eq_spec (vals : List ℚ) :
    is_percentage_series vals =
      (decide (∀ v ∈ vals, 0 ≤ v ∧ v ≤ 1) &&
        decide (|vals.sum - 1| ≤ (1 / 1000000000) * max |vals.sum| 1)) := by
  rw [Bool.eq_iff_iff]
  simp [is_percentage_series, isclose, List.all_eq_true, abs_one]

/-- C2: `pick_plottype` agrees with the ordered selection rules of the
specification on every input (single series or table). -/
theorem pick_plottype_follows_spec_rules (data : PData) :
    pick_plottype data = select_kind_spec data := by
  cases data with
  | series s =>
      simp only [pick_plottype, select_kind_spec, is_percentage_series_eq_spec]
  | frame f =>
      simp only [pick_plottype, select_kind_spec, is_percentage_series_eq_spec]

/-- The `highlight` argument: a single integer index, or a list of integer
indices (the source distinguishes the two with a `try/except TypeError`
around `for h in highlight`). -/
inductive Highlight where
  | int (h : ℤ)
  | list (hs : List ℤ)
  deriving DecidableEq, Repr

/-- Python list assignment `l[i] = c`: a negative index counts from the end
(`len(l) + i`); an index out of range raises `IndexError`. -/
def pyListSet (l : List Color) (i : ℤ) (c : Color) : Except PyErr (List Color) :=
  let j : ℤ := if i < 0 then (l.length : ℤ) + i else i
  if 0 ≤ j ∧ j < (l.length : ℤ) then .ok (l.set j.toNat c)
  else .error .indexError

/-- `define_colors`: start from all-lightgray (one entry per row for a
series, or for any data when the plot type is `'scatter'`; one entry per
column for a frame otherwise), then overwrite the highlighted positions
with `HIGHLIGHT_COLOR`.  A list highlight is walked with each negative
index pre-normalized by `len(data)` (the number of rows); a single integer
highlight lands in the `except TypeError` branch and is applied directly
with Python list-indexing semantics. -/
def define_colors (highlight : Highlight) (data : PData) (plottype : String) :
    Except PyErr (List Color) :=
  let color : List Color :=
    match data with
    | .series _ => List.replicate data.len .lightgray
    | .frame f =>
        if plottype = "scatter" then List.replicate data.len .lightgray
        else List.replicate f.cols.length .lightgray
  match highlight with
  | .list hs =>
      hs.foldlM
        (fun col h =>
          pyListSet col (if h < 0 then (data.len : ℤ) + h else h) HIGHLIGHT_COLOR)
        color
  | .int h => pyListSet color h HIGHLIGHT_COLOR

/-- Number of plotted items in the specification's sense: categories (rows)
for series input, columns for table input, except that `'scatter'` treats
any input like a single series (one item per row). -/
def plottedItems (data : PData) (plottype : String) : ℕ :=
  match data with
  | .series s => s.entries.length
  | .frame f => if plottype = "scatter" then f.index.length else f.cols.length

/-- Normalization of a (possibly negative) highlight index against a length
`n`, as the specification words it: `len + index` for a negative index. -/
def normIdx (n : ℕ) (h : ℤ) : ℤ := if h < 0 then (n : ℤ) + h else h

/-- The indices carried by a highlight selector. -/
def hlInts : Highlight → List ℤ
  | .int h => [h]
  | .list hs => hs

/-- The color sequence the specification describes for `n` plotted items and
already-normalized highlight positions `S`: neutral everywhere except at the
positions of `S`. -/
def highlightMapZ (n : ℕ) (S : List ℤ) : List Color :=
  (List.range n).map (fun (i : ℕ) => if (i : ℤ) ∈ S then HIGHLIGHT_COLOR else .lightgray)

theorem except_ok_bind {ε α β : Type} (a : α) (f : α → Except ε β) :
    (Except.ok a >>= f) = f a := rfl

instance instDecidableEqExcept {ε α : Type} [DecidableEq ε] [DecidableEq α] :
    DecidableEq (Except ε α) := fun a b =>
  match a, b with
  | .ok x, .ok y =>
      if h : x = y then .isTrue (congrArg Except.ok h)
      else .isFalse (fun hc => h (Except.ok.inj hc))
  | .error e, .error e' =>
      if h : e = e' then .isTrue (congrArg Except.error h)
      else .isFalse (fun hc => h (Except.error.inj hc))
  | .ok _, .error _ => .isFalse (fun hc => Except.noConfusion hc)
  | .error _, .ok _ => .isFalse (fun hc => Except.noConfusion hc)

theorem pyListSet_ok_length {l l' : List Color} {i : ℤ} {c : Color}
    (h : pyListSet l i c = .ok l') : l'.length = l.length := by
  simp only [pyListSet] at h
  split at h <;> split at h <;>
    first
      | (rw [← Except.ok.inj h]; simp)
      | exact Except.noConfusion h

theorem foldlM_pyListSet_ok_length {hs : List ℤ} {n : ℕ} :
    ∀ {col cs : List Color},
      hs.foldlM (fun col h =>
          pyListSet col (if h < 0 then (n : ℤ) + h else h) HIGHLIGHT_COLOR) col
        = .ok cs → cs.length = col.length := by
  induction hs with
  | nil => intro col cs h; cases h; rfl
  | cons a t ih =>
      intro col cs h
      simp only [List.foldlM_cons] at h
      cases hstep : pyListSet col (if a < 0 then (n : ℤ) + a else a) HIGHLIGHT_COLOR with
      | error e => rw [hstep] at h; exact Except.noConfusion h
      | ok mid =>
          rw [hstep, except_ok_bind] at h
          rw [ih h, pyListSet_ok_length hstep]

theorem replicate_eq_highlightMapZ (n : ℕ) :
    List.replicate n Color.lightgray = highlightMapZ n [] := by
  apply List.ext_getElem
  · simp [highlightMapZ]
  · intro i h1 h2
    simp [highlightMapZ]

theorem highlightMapZ_set (n : ℕ) (S : List ℤ) (j : ℕ) (_hj : j < n) :
    (highlightMapZ n S).set j HIGHLIGHT_COLOR = highlightMapZ n (S ++ [(j : ℤ)]) := by
  apply List.ext_getElem
  · simp [highlightMapZ]
  · intro i h1 h2
    simp only [highlightMapZ, List.getElem_set, List.getElem_map, List.getElem_range,
      List.mem_append, List.mem_singleton]
    rcases eq_or_ne j i with rfl | hne
    · simp
    · have hcast : ¬ ((i : ℤ) = (j : ℤ)) := by exact_mod_cast Ne.symm hne
      simp [if_neg hne, hcast]

theorem normIdx_range (n : ℕ) (h : ℤ) (hlo : -(n : ℤ) ≤ h) (hhi : h < (n : ℤ)) :
    0 ≤ normIdx n h ∧ normIdx n h < (n : ℤ) := by
  unfold normIdx; split <;> omega

theorem normIdx_nonneg_id (n : ℕ) (h : ℤ) (hp : 0 ≤ h) : normIdx n h = h := by
  simp [normIdx, not_lt.mpr hp]

theorem pyListSet_highlightMapZ (n : ℕ) (S : List ℤ) (h : ℤ)
    (hlo : -(n : ℤ) ≤ h) (hhi : h < (n : ℤ)) :
    pyListSet (highlightMapZ n S) h HIGHLIGHT_COLOR
      = .ok (highlightMapZ n (S ++ [normIdx n h])) := by
  have hlen : (highlightMapZ n S).length = n := by simp [highlightMapZ]
  have hrange := normIdx_range n h hlo hhi
  simp only [pyListSet, hlen]
  have hnorm : (if h < 0 then (n : ℤ) + h else h) = normIdx n h := rfl
  rw [hnorm, if_pos hrange]
  rw [highlightMapZ_set n S (normIdx n h).toNat (by omega)]
  rw [Int.toNat_of_nonneg hrange.1]

theorem foldlM_pyListSet_highlightMapZ (n : ℕ) :
    ∀ (hs : List ℤ) (S : List ℤ),
      (∀ h ∈ hs, -(n : ℤ) ≤ h ∧ h < (n : ℤ)) →
      hs.foldlM (fun col h =>
          pyListSet col (if h < 0 then (n : ℤ) + h else h) HIGHLIGHT_COLOR)
          (highlightMapZ n S)
        = .ok (highlightMapZ n (S ++ hs.map (normIdx n))) := by
  intro hs
  induction hs with
  | nil => intro S _; simp only [List.foldlM_nil, List.map_nil, List.append_nil]; rfl
  | cons a t ih =>
      intro S hrange
      have ha := hrange a (by simp)
      have ha' := normIdx_range n a ha.1 ha.2
      have hstep : pyListSet (highlightMapZ n S) (if a < 0 then (n : ℤ) + a else a)
          HIGHLIGHT_COLOR = .ok (highlightMapZ n (S ++ [normIdx n a])) := by
        have h2 := pyListSet_highlightMapZ n S (normIdx n a) (by omega) ha'.2
        rw [normIdx_nonneg_id n _ ha'.1] at h2
        exact h2
      simp only [List.foldlM_cons]
      rw [hstep, except_ok_bind]
      rw [ih (S ++ [normIdx n a]) (fun h hh => hrange h (by simp [hh]))]
      simp [List.map_cons, List.append_assoc]

/-- Sample 3-row, 2-column frame used as concrete test data. -/
def sampleFrame32 : PFrame :=
  ⟨["r1", "r2", "r3"], false, [("A", [1, 2, 3]), ("B", [4, 5, 6])]⟩

/-- Sample 3-entry series used as concrete test data. -/
def sampleSeries3 : PSeries := ⟨[("a", 1), ("b", 3), ("c", 2)], false⟩

/-- C5 (amended): whenever `define_colors` returns a color sequence, its
length equals the number of plotted items (categories for a series, columns
for a table, rows for `'scatter'`); and for series input every position is
neutral except exactly those named by the highlight after `len + index`
normalization of negative indices.  For table input, however, negative
indices inside a *list* highlight are normalized by `len(data)` — the number
of rows — rather than by the length of the color sequence, so the claim's
positional reading fails on non-square tables (see the counterexample). -/
theorem define_colors_length_invariant_and_series_highlights :
    (∀ (hl : Highlight) (data : PData) (pt : String) (cs : List Color),
        define_colors hl data pt = .ok cs → cs.length = plottedItems data pt)
    ∧ (∀ (s : PSeries) (pt : String) (hl : Highlight),
        (∀ h ∈ hlInts hl,
          -(s.entries.length : ℤ) ≤ h ∧ h < (s.entries.length : ℤ)) →
        define_colors hl (.series s) pt
          = .ok (highlightMapZ s.entries.length
              ((hlInts hl).map (normIdx s.entries.length)))) := by
  constructor
  · intro hl data pt cs hok
    cases data with
    | series s =>
        cases hl with
        | int h =>
            simp only [define_colors] at hok
            rw [pyListSet_ok_length hok]
            simp [PData.len, plottedItems]
        | list hs =>
            simp only [define_colors] at hok
            rw [foldlM_pyListSet_ok_length hok]
            simp [PData.len, plottedItems]
    | frame f =>
        by_cases hsc : pt = "scatter"
        · cases hl with
          | int h =>
              simp only [define_colors, if_pos hsc] at hok
              rw [pyListSet_ok_length hok]
              simp [PData.len, plottedItems, hsc]
          | list hs =>
              simp only [define_colors, if_pos hsc] at hok
              rw [foldlM_pyListSet_ok_length hok]
              simp [PData.len, plottedItems, hsc]
        · cases hl with
          | int h =>
              simp only [define_colors, if_neg hsc] at hok
              rw [pyListSet_ok_length hok]
              simp [plottedItems, hsc]
          | list hs =>
              simp only [define_colors, if_neg hsc] at hok
              rw [foldlM_pyListSet_ok_length hok]
              simp [plottedItems, hsc]
  · intro s pt hl hrange
    cases hl with
    | int h =>
        have hh := hrange h (by simp [hlInts])
        simp only [define_colors, PData.len, hlInts, List.map_cons, List.map_nil]
        rw [replicate_eq_highlightMapZ]
        have h2 := pyListSet_highlightMapZ s.entries.length [] h hh.1 hh.2
        simpa using h2
    | list hs =>
        simp only [define_colors, PData.len, hlInts]
        rw [replicate_eq_highlightMapZ]
        have h2 := foldlM_pyListSet_highlightMapZ s.entries.length hs []
          (by simpa [hlInts] using hrange)
        simpa using h2

/-- C5 witness: the length invariant and the series characterization,
instantiated at concrete inputs. -/
theorem define_colors_length_invariant_wit :
    ([Color.lightgray, HIGHLIGHT_COLOR].length
        = plottedItems (.frame sampleFrame32) "composition_comparison")
    ∧ define_colors (.list [0, -1]) (.series sampleSeries3) "bar"
        = .ok (highlightMapZ 3 ([0, -1].map (normIdx 3))) :=
  ⟨define_colors_length_invariant_and_series_highlights.1
      (.list [-2]) (.frame sampleFrame32) "composition_comparison"
      [Color.lightgray, HIGHLIGHT_COLOR] (by decide),
   define_colors_length_invariant_and_series_highlights.2
      sampleSeries3 "bar" (.list [0, -1]) (by decide)⟩

/-- C5 counterexample: on a 3-row, 2-column table with a non-scatter kind,
the list highlight `[-2]` is normalized by the row count (3), so the color
at position `3 + (-2) = 1` is highlighted — not the position `2 + (-2) = 0`
that normalizing within the returned color sequence (the claim's reading)
would name. -/
theorem define_colors_list_neg_table_cx :
    define_colors (.list [-2]) (.frame sampleFrame32) "composition_comparison"
        = .ok [Color.lightgray, HIGHLIGHT_COLOR]
    ∧ define_colors (.list [-2]) (.frame sampleFrame32) "composition_comparison"
        ≠ .ok (highlightMapZ 2 ((hlInts (.list [-2])).map (normIdx 2))) := by
  exact ⟨by decide, by decide⟩

theorem pyListSet_int_eq_prenorm (l : List Color) (c : Color) (h : ℤ)
    (hneg : h < 0) (hlo : -(l.length : ℤ) ≤ h) :
    pyListSet l h c = pyListSet l ((l.length : ℤ) + h) c := by
  simp only [pyListSet]
  rw [if_pos hneg, if_neg (by omega : ¬ ((l.length : ℤ) + h < 0))]

/-- C6 (amended): a single negative integer highlight and the singleton list
containing it produce the same colors whenever `len(data)` coincides with
the number of plotted items — always for series input, for tables only with
`'scatter'` or when the table is square.  (On non-square, non-scatter tables
the two normalize against different lengths: see the counterexample.) -/
theorem define_colors_int_eq_singleton_list (data : PData) (pt : String) (h : ℤ)
    (hlen : data.len = plottedItems data pt)
    (hneg : h < 0) (hlo : -(data.len : ℤ) ≤ h) :
    define_colors (.int h) data pt = define_colors (.list [h]) data pt := by
  cases data with
  | series s =>
      simp only [PData.len] at hlo
      simp only [define_colors, PData.len, List.foldlM_cons, List.foldlM_nil,
        if_pos hneg]
      rw [show ∀ x : Except PyErr (List Color), (x >>= pure) = x from fun x => by
        cases x <;> rfl]
      rw [pyListSet_int_eq_prenorm _ _ h hneg
        (by simp only [List.length_replicate]; omega)]
      simp
  | frame f =>
      simp only [PData.len] at hlen hlo
      by_cases hsc : pt = "scatter"
      · simp only [define_colors, PData.len, List.foldlM_cons, List.foldlM_nil,
          if_pos hneg, if_pos hsc]
        rw [show ∀ x : Except PyErr (List Color), (x >>= pure) = x from fun x => by
          cases x <;> rfl]
        rw [pyListSet_int_eq_prenorm _ _ h hneg
          (by simp only [List.length_replicate]; omega)]
        simp
      · simp only [plottedItems, if_neg hsc] at hlen
        simp only [define_colors, PData.len, List.foldlM_cons, List.foldlM_nil,
          if_pos hneg, if_neg hsc]
        rw [show ∀ x : Except PyErr (List Color), (x >>= pure) = x from fun x => by
          cases x <;> rfl]
        rw [pyListSet_int_eq_prenorm _ _ h hneg
          (by simp only [List.length_replicate]; omega)]
        simp [hlen]

/-- C6 witness: on a 3-entry series, highlight `-1` and highlight `[-1]`
agree. -/
theorem define_colors_int_eq_singleton_list_wit :
    define_colors (.int (-1)) (.series sampleSeries3) "bar"
      = define_colors (.list [-1]) (.series sampleSeries3) "bar" :=
  define_colors_int_eq_singleton_list (.series sampleSeries3) "bar" (-1)
    (by decide) (by decide) (by decide)

/-- C6 counterexample: on a 3-row, 2-column table with a non-scatter kind,
the single highlight `-1` marks the last column, while the list `[-1]` is
normalized to row index `2`, which is out of range for the 2-entry color
list and raises `IndexError` — the two calls do not agree. -/
theorem define_colors_int_vs_list_table_cx :
    define_colors (.int (-1)) (.frame sampleFrame32) "composition_comparison"
        = .ok [Color.lightgray, HIGHLIGHT_COLOR]
    ∧ define_colors (.list [-1]) (.frame sampleFrame32) "composition_comparison"
        = .error PyErr.indexError
    ∧ define_colors (.int (-1)) (.frame sampleFrame32) "composition_comparison"
        ≠ define_colors (.list [-1]) (.frame sampleFrame32) "composition_comparison" := by
  exact ⟨by decide, by decide, by decide⟩

theorem set_replicate_last (m : ℕ) (c : Color) :
    (List.replicate (m + 1) Color.lightgray).set m c
      = List.replicate m Color.lightgray ++ [c] := by
  apply List.ext_getElem
  · simp
  · intro i h1 h2
    simp only [List.length_set, List.length_replicate] at h1
    rcases eq_or_ne m i with rfl | hne
    · rw [List.getElem_set_self]
      rw [List.getElem_append_right (by simp)]
      simp
    · have him : i < m := by omega
      rw [List.getElem_set_ne (by omega)]
      rw [List.getElem_append_left (by simpa using him)]
      simp

theorem pyListSet_last (n : ℕ) (hn : 0 < n) (c : Color) :
    pyListSet (List.replicate n Color.lightgray) (-1) c
      = .ok (List.replicate (n - 1) Color.lightgray ++ [c]) := by
  obtain ⟨m, rfl⟩ : ∃ m, n = m + 1 := ⟨n - 1, by omega⟩
  simp only [pyListSet, List.length_replicate]
  rw [if_pos (by omega : (-1 : ℤ) < 0)]
  rw [if_pos (by omega)]
  have ht : (((m + 1 : ℕ) : ℤ) + -1).toNat = m := by omega
  rw [ht, set_replicate_last]
  simp

/-- C8 (amended): with highlight `-1`, `define_colors` marks exactly the
last plotted position for every input that has at least one plotted item.
(On an input with zero plotted items the assignment `color[-1]` raises
`IndexError` instead — see the counterexample.) -/
theorem define_colors_neg_one_marks_last (data : PData) (pt : String)
    (hpos : 0 < plottedItems data pt) :
    define_colors (.int (-1)) data pt
      = .ok (List.replicate (plottedItems data pt - 1) Color.lightgray
          ++ [HIGHLIGHT_COLOR]) := by
  cases data with
  | series s =>
      simp only [plottedItems] at hpos ⊢
      simp only [define_colors, PData.len]
      exact pyListSet_last _ hpos _
  | frame f =>
      by_cases hsc : pt = "scatter"
      · simp only [plottedItems, if_pos hsc] at hpos ⊢
        simp only [define_colors, PData.len, if_pos hsc]
        exact pyListSet_last _ hpos _
      · simp only [plottedItems, if_neg hsc] at hpos ⊢
        simp only [define_colors, PData.len, if_neg hsc]
        exact pyListSet_last _ hpos _

/-- C8 witness: on a 3-entry series, highlight `-1` yields
`[lightgray, lightgray, purple]`. -/
theorem define_colors_neg_one_marks_last_wit :
    0 < plottedItems (.series sampleSeries3) "bar"
    ∧ define_colors (.int (-1)) (.series sampleSeries3) "bar"
        = .ok (List.replicate (plottedItems (.series sampleSeries3) "bar" - 1)
            Color.lightgray ++ [HIGHLIGHT_COLOR]) :=
  ⟨by decide, define_colors_neg_one_marks_last (.series sampleSeries3) "bar" (by decide)⟩

/-- C8 counterexample: on an empty series (`len(data) = 0`), highlight `-1`
raises `IndexError` instead of returning a color sequence, so the claim's
"regardless of `len(data)`" fails. -/
theorem define_colors_neg_one_empty_cx :
    define_colors (.int (-1)) (.series ⟨[], false⟩) "bar"
      = .error PyErr.indexError := by
  decide

/-- pandas `s.loc[lbl] = v` on a series: overwrite every entry whose label is
`lbl` if one exists, otherwise append a new `(lbl, v)` entry (enlargement). -/
def locSet (s : List (String × ℚ)) (lbl : String) (v : ℚ) : List (String × ℚ) :=
  if s.any (fun e => e.1 == lbl) then
    s.map (fun e => if e.1 == lbl then (e.1, v) else e)
  else s ++ [(lbl, v)]

/-- pandas `Series.cumsum()`: running sums. -/
def cumsum : List ℚ → List ℚ
  | [] => []
  | v :: vs => v :: (cumsum vs).map (fun c => v + c)

/-- pandas `shift(1).fillna(0)`: move every value one position later, fill
the first with 0, keep the length. -/
def shiftFill (l : List ℚ) : List ℚ := (0 :: l).take l.length

/-- `plot_waterfall`: computes the blank (baseline) series
`data.cumsum().shift(1).fillna(0)`, sets the `'total'` row on both series
via `.loc`, appends `'gray'` to the colors, and reverses all three together
for a build-up.  Returns `(data, blank, color)` — the data handed to the
stacked-bar backend call. -/
def plot_waterfall (data : List (String × ℚ)) (color : Option (List Color))
    (buildup : Bool) :
    List (String × ℚ) × List (String × ℚ) × List Color :=
  let color := color.getD (List.replicate data.length Color.lightgray)
  let blank := (data.map Prod.fst).zip (shiftFill (cumsum (data.map Prod.snd)))
  let total := (data.map Prod.snd).sum
  let data := locSet data "total" total
  let blank := locSet blank "total" 0
  let color := color ++ [Color.gray]
  if buildup then (data.reverse, blank.reverse, color.reverse)
  else (data, blank, color)

theorem cumsum_length (vs : List ℚ) : (cumsum vs).length = vs.length := by
  induction vs with
  | nil => rfl
  | cons v t ih => simp [cumsum, ih]

theorem cumsum_eq_map (vs : List ℚ) :
    cumsum vs = (List.range vs.length).map (fun (i : ℕ) => (vs.take (i + 1)).sum) := by
  induction vs with
  | nil => rfl
  | cons v t ih =>
      simp only [cumsum, ih, List.length_cons, List.range_succ_eq_map, List.map_cons,
        List.map_map]
      simp [Function.comp, List.take_succ_cons, List.cons.injEq]

theorem shiftFill_cumsum (vs : List ℚ) :
    shiftFill (cumsum vs)
      = (List.range vs.length).map (fun (i : ℕ) => (vs.take i).sum) := by
  have h1 : (0 :: cumsum vs)
      = (List.range (vs.length + 1)).map (fun (i : ℕ) => (vs.take i).sum) := by
    rw [cumsum_eq_map, List.range_succ_eq_map]
    simp [List.map_map, Function.comp]
  rw [shiftFill, cumsum_length, h1, ← List.map_take, List.take_range]
  rw [show vs.length ⊓ (vs.length + 1) = vs.length from by omega]

theorem locSet_of_not_mem {s : List (String × ℚ)} {lbl : String} (v : ℚ)
    (h : lbl ∉ s.map Prod.fst) : locSet s lbl v = s ++ [(lbl, v)] := by
  rw [locSet, if_neg]
  simp only [List.any_eq_true, beq_iff_eq, not_exists, not_and]
  intro e he
  exact fun hc => h (hc ▸ List.mem_map_of_mem Prod.fst he)

/-- C3 (amended): for every series with no category labeled `'total'`,
`plot_waterfall` returns baseline offsets where position `i` carries the sum
of the first `i` values (0 for the first category), and appends a synthetic
`('total', sum)` row with offset 0 and the distinct `gray` color to the value
table, the blank table and the color sequence.  (If a category named
`'total'` already exists, `.loc` overwrites it instead of appending — see
the counterexample.) -/
theorem plot_waterfall_offsets_and_total (data : List (String × ℚ)) (c : List Color)
    (hnt : "total" ∉ data.map Prod.fst) :
    plot_waterfall data (some c) false
      = (data ++ [("total", (data.map Prod.snd).sum)],
         (data.map Prod.fst).zip
             ((List.range data.length).map (fun (i : ℕ) => ((data.map Prod.snd).take i).sum))
           ++ [("total", 0)],
         c ++ [Color.gray]) := by
  have hblank : ((data.map Prod.fst).zip (shiftFill (cumsum (data.map Prod.snd)))).map Prod.fst
      = data.map Prod.fst := by
    apply List.map_fst_zip
    simp [shiftFill, cumsum_length]
  simp only [plot_waterfall, Option.getD_some, Bool.false_eq_true, if_false]
  rw [locSet_of_not_mem _ hnt, locSet_of_not_mem _ (by rw [hblank]; exact hnt),
    shiftFill_cumsum]
  simp

/-- C3 witness: the claim's concrete instance — input values `[10, -3, 5]`
give offsets `[0, 10, 7]` and an appended total row of `12` with offset 0. -/
theorem plot_waterfall_offsets_and_total_wit :
    plot_waterfall [("a", 10), ("b", -3), ("c", 5)]
        (some [Color.lightgray, Color.lightgray, Color.lightgray]) false
      = ([("a", 10), ("b", -3), ("c", 5), ("total", 12)],
         [("a", 0), ("b", 10), ("c", 7), ("total", 0)],
         [Color.lightgray, Color.lightgray, Color.lightgray, Color.gray]) := by
  have h := plot_waterfall_offsets_and_total [("a", 10), ("b", -3), ("c", 5)]
    [Color.lightgray, Color.lightgray, Color.lightgray] (by decide)
  rw [h]
  norm_num [List.range_succ]

/-- C3 counterexample: on the series `[('total', 5)]` the `.loc['total']`
assignment overwrites the existing row, so nothing is appended — the
returned value table still has a single row, not two. -/
theorem plot_waterfall_total_label_cx :
    (plot_waterfall [("total", 5)] none false).1 = [("total", 5)]
    ∧ ((plot_waterfall [("total", 5)] none false).1).length ≠ 2 := by
  constructor
  · norm_num [plot_waterfall, locSet]
  · norm_num [plot_waterfall, locSet]

/-- C4: `plot_waterfall` with `buildup` produces exactly the element-wise
reversals of the build-down's value table, offsets and colors — the reversal
is applied jointly after the `'total'` handling, for every input series and
color sequence. -/
theorem plot_waterfall_buildup_reverses (data : List (String × ℚ))
    (c : Option (List Color)) :
    plot_waterfall data c true
      = ((plot_waterfall data c false).1.reverse,
         (plot_waterfall data c false).2.1.reverse,
         (plot_waterfall data c false).2.2.reverse) := rfl

/-- One `ax.text(x, y, label, ...)` call recorded from the label helper: its
coordinates, the display value with its format string, and the
anchoring/color arguments. -/
structure TextCall where
  x : ℚ
  y : ℚ
  label : ℚ
  strfmt : String
  va : String
  ha : String
  textcolor : String
  deriving DecidableEq, Repr

/-- `plot_values_above_bar`: offsets every position by 2.5% of the relevant
axis range, nudges grouped labels along the category axis, and emits one
text call per `(position, display value)` pair.  `xlim`/`ylim` stand for
`ax.get_xlim()` / `ax.get_ylim()` of the target axis; exactly one of
`bar_nr`/`nr_bars` set, or an unknown `orient`, raises `ValueError`. -/
def plot_values_above_bar (data : List ℚ) (display_values : Option (List ℚ))
    (xlim ylim : ℚ × ℚ) (strfmt : String) (orient : String) (textcolor : String)
    (bar_nr nr_bars : Option ℤ) : Except PyErr (List TextCall) :=
  if bar_nr.isNone != nr_bars.isNone then .error .valueError
  else
    let dv := display_values.getD data
    if orient = "v" ∨ orient = "h" then
      let lims := if orient = "v" then xlim else ylim
      let va := if orient = "v" then "center" else "bottom"
      let ha := if orient = "v" then "left" else "center"
      let plotsize := lims.2 - lims.1
      .ok ((data.zip dv).enum.map (fun p =>
        let v : ℚ := p.2.1 + 0.025 * plotsize
        let iq : ℚ :=
          match bar_nr, nr_bars with
          | some b, some n => (p.1 : ℚ) + (-(1 / 2) + 1 / ((n : ℚ) + 2) * ((b : ℚ) + 1))
          | _, _ => (p.1 : ℚ)
        { x := if orient = "v" then v else iq
          y := if orient = "v" then iq else v
          label := p.2.2
          strfmt := strfmt
          va := va
          ha := ha
          textcolor := textcolor }))
    else .error .valueError

theorem zip_self_enumFrom_map (k : ℕ) (l : List ℚ) (F : ℕ × ℚ × ℚ → TextCall)
    (G : ℕ × ℚ → TextCall) (hFG : ∀ i v, F (i, v, v) = G (i, v)) :
    ((l.zip l).enumFrom k).map F = (l.enumFrom k).map G := by
  induction l generalizing k with
  | nil => rfl
  | cons a t ih =>
      simp only [List.zip_cons_cons, List.enumFrom, List.map_cons, hFG]
      rw [show List.zipWith Prod.mk t t = t.zip t from rfl, ih (k + 1)]

/-- C7: the label helper places each label `0.025 * (hi - lo)` past the bar
end along the value axis (both orientations, each measured on its own axis),
and when `bar_nr`/`nr_bars` are both given the category coordinate of slot
`i` is `i - 1/2 + (bar_nr + 1) / (nr_bars + 2)`; in particular an axis range
`[0, 100]` and a bar ending at `40` give label position `42.5`. -/
theorem plot_values_above_bar_positions :
    (∀ (data : List ℚ) (xlim ylim : ℚ × ℚ) (fmt tc : String) (b n : ℤ),
      plot_values_above_bar data none xlim ylim fmt "v" tc (some b) (some n)
        = .ok (data.enum.map (fun p =>
            ⟨p.2 + 0.025 * (xlim.2 - xlim.1),
             (p.1 : ℚ) - 1 / 2 + ((b : ℚ) + 1) / ((n : ℚ) + 2),
             p.2, fmt, "center", "left", tc⟩)))
    ∧ (∀ (data : List ℚ) (xlim ylim : ℚ × ℚ) (fmt tc : String) (b n : ℤ),
      plot_values_above_bar data none xlim ylim fmt "h" tc (some b) (some n)
        = .ok (data.enum.map (fun p =>
            ⟨(p.1 : ℚ) - 1 / 2 + ((b : ℚ) + 1) / ((n : ℚ) + 2),
             p.2 + 0.025 * (ylim.2 - ylim.1),
             p.2, fmt, "bottom", "center", tc⟩)))
    ∧ (∀ (data : List ℚ) (xlim ylim : ℚ × ℚ) (fmt tc : String),
      plot_values_above_bar data none xlim ylim fmt "v" tc none none
        = .ok (data.enum.map (fun p =>
            ⟨p.2 + 0.025 * (xlim.2 - xlim.1), (p.1 : ℚ), p.2, fmt, "center", "left", tc⟩)))
    ∧ plot_values_above_bar [40] none (0, 100) (0, 1) ".2f" "v" "black" none none
        = .ok [⟨42.5, 0, 40, ".2f", "center", "left", "black"⟩] := by
  refine ⟨?_, ?_, ?_, ?_⟩
  · intro data xlim ylim fmt tc b n
    simp only [plot_values_above_bar, Option.isNone_some, bne_self_eq_false,
      Bool.false_eq_true, if_false, Option.getD_none,
      if_pos (Or.inl rfl : "v" = "v" ∨ "v" = "h"), if_pos (rfl : "v" = "v")]
    refine congrArg Except.ok ?_
    simp only [List.enum]
    refine zip_self_enumFrom_map 0 data _ _ ?_
    intro i v
    simp only [TextCall.mk.injEq, if_pos (trivial : True)]
    refine ⟨by ring_nf, by ring_nf, trivial, trivial, trivial, trivial, trivial⟩
  · intro data xlim ylim fmt tc b n
    simp only [plot_values_above_bar, Option.isNone_some, bne_self_eq_false,
      Bool.false_eq_true, if_false, Option.getD_none,
      if_pos (Or.inr rfl : "h" = "v" ∨ "h" = "h"),
      if_neg (by decide : ¬ ("h" = "v"))]
    refine congrArg Except.ok ?_
    simp only [List.enum]
    refine zip_self_enumFrom_map 0 data _ _ ?_
    intro i v
    simp only [if_neg (by decide : ¬ ("h" = "v")), TextCall.mk.injEq]
    refine ⟨by ring_nf, by ring_nf, trivial, trivial, trivial, trivial, trivial⟩
  · intro data xlim ylim fmt tc
    simp only [plot_values_above_bar, Option.isNone_none, bne_self_eq_false,
      Bool.false_eq_true, if_false, Option.getD_none,
      if_pos (Or.inl rfl : "v" = "v" ∨ "v" = "h"), if_pos (rfl : "v" = "v")]
    refine congrArg Except.ok ?_
    simp only [List.enum]
    refine zip_self_enumFrom_map 0 data _ _ ?_
    intro i v
    simp only [TextCall.mk.injEq, if_pos (trivial : True)]
  · simp only [plot_values_above_bar, Option.isNone_none, bne_self_eq_false,
      Bool.false_eq_true, if_false, Option.getD_none,
      if_pos (Or.inl rfl : "v" = "v" ∨ "v" = "h"), if_pos (rfl : "v" = "v")]
    simp [List.zip, List.zipWith, List.enum, List.enumFrom, TextCall.mk.injEq]
    norm_num

/-- The result of pandas `squeeze()`: possibly a bare scalar. -/
inductive Squeezed where
  | scalar (v : ℚ)
  | series (s : PSeries)
  | frame (f : PFrame)
  deriving DecidableEq, Repr

/-- pandas `squeeze()`: every axis of length 1 collapses.  A one-entry
series or a 1×1 frame collapses to a scalar; a single-column frame becomes
that column keyed by the row index; a single-row multi-column frame becomes
the row keyed by the column names (which are not a `DatetimeIndex`), reading
the first cell of each column — well-formed one-row frames have exactly one
value per column. -/
def squeeze : PData → Squeezed
  | .series s =>
      match s.entries with
      | [e] => .scalar e.2
      | _ => .series s
  | .frame f =>
      match f.cols with
      | [c] =>
          match f.index, c.2 with
          | [_], [v] => .scalar v
          | _, _ => .series ⟨f.index.zip c.2, f.timeIndex⟩
      | cols =>
          if f.index.length = 1 then
            .series ⟨cols.map (fun c => (c.1, c.2.headD 0)), false⟩
          else .frame f

/-- Insert an entry into a list sorted by the comparator. -/
def insertBy (le : (String × ℚ) → (String × ℚ) → Bool) (e : String × ℚ) :
    List (String × ℚ) → List (String × ℚ)
  | [] => [e]
  | f :: t => if le e f then e :: f :: t else f :: insertBy le e t

/-- Insertion sort by a comparator. -/
def sortBy (le : (String × ℚ) → (String × ℚ) → Bool) :
    List (String × ℚ) → List (String × ℚ)
  | [] => []
  | e :: t => insertBy le e (sortBy le t)

/-- pandas `Series.sort_values(ascending=...)`: reorders the entries by
value (ties in unspecified engine order; the model sorts stably). -/
def sort_values (entries : List (String × ℚ)) (ascending : Bool) :
    List (String × ℚ) :=
  if ascending then sortBy (fun a b => decide (a.2 ≤ b.2)) entries
  else sortBy (fun a b => decide (b.2 ≤ a.2)) entries

def isSeriesSq : Squeezed → Bool
  | .series _ => true
  | _ => false

/-- `pick_plottype` applied to the squeezed data: a bare scalar has no
`.index` attribute, so the isinstance test raises `AttributeError`. -/
def pick_plottype_sq : Squeezed → Except PyErr String
  | .scalar _ => .error .attributeError
  | .series s => .ok (pick_plottype (.series s))
  | .frame f => .ok (pick_plottype (.frame f))

/-- `define_colors` applied to the squeezed data: a bare scalar is neither a
`Series` nor a `DataFrame`, so it raises `TypeError`. -/
def define_colors_sq (hl : Highlight) (d : Squeezed) (pt : String) :
    Except PyErr (List Color) :=
  match d with
  | .scalar _ => .error .typeError
  | .series s => define_colors hl (.series s) pt
  | .frame f => define_colors hl (.frame f) pt

/-- The percentage test `micompanyify` uses to default `strfmt`: per column
for a frame, on the values for a series, vacuously false for a scalar (both
isinstance tests fail). -/
def isPctAllSq : Squeezed → Bool
  | .scalar _ => false
  | .series s => is_percentage_series s.vals
  | .frame f => f.cols.all (fun c => is_percentage_series c.2)

/-- The arguments of one `plot_values_above_bar` call made by the renderer.
The axis limits belong to the backend's figure state, so the call is
recorded rather than resolved into text positions. -/
structure LabelArgs where
  pos : List ℚ
  disp : Option (List ℚ)
  strfmt : String
  orient : String
  textcolor : String
  bar_nr : Option ℤ
  nr_bars : Option ℤ
  deriving DecidableEq, Repr

/-- Everything `micompanyify` hands to the rendering backend: the resolved
kind, orientation and format, the color sequence of the main plot call, the
(sorted / waterfall-augmented) data it plots, the waterfall baseline, the
scatter column selection, the recorded label calls, and which tick labels
are suppressed afterwards. -/
structure MicOutput where
  plottype : String
  orient : String
  strfmt : String
  color : List Color
  plotted : Squeezed
  blank : Option (List (String × ℚ))
  scatterXYS : Option (List ℚ × List ℚ × Option (List ℚ))
  labels : List LabelArgs
  suppressXTicks : Bool
  suppressYTicks : Bool
  deriving DecidableEq, Repr

def mkOut (plottype orient strfmt : String) (color : List Color)
    (plotted : Squeezed) (blank : Option (List (String × ℚ)))
    (sxys : Option (List ℚ × List ℚ × Option (List ℚ)))
    (labels : List LabelArgs) : MicOutput :=
  { plottype := plottype, orient := orient, strfmt := strfmt, color := color,
    plotted := plotted, blank := blank, scatterXYS := sxys, labels := labels,
    suppressXTicks := decide (orient = "v" ∧ plottype ≠ "scatter"),
    suppressYTicks := decide (orient = "h"
      ∧ plottype ∉ ["line_timeseries", "scatter"]) }

/-- pandas `iloc[h, :]` row selection: a negative `h` counts from the end;
out of range raises `IndexError`. -/
def pyRow (n : ℕ) (h : ℤ) : Except PyErr ℕ :=
  let j : ℤ := if h < 0 then (n : ℤ) + h else h
  if 0 ≤ j ∧ j < (n : ℤ) then .ok j.toNat else .error .indexError

/-- The kinds for which `micompanyify` forces `ascending = None`. -/
def noSortKinds : List String :=
  ["scatter", "piechart", "composition_comparison", "bar_timeseries",
   "line_timeseries"]

/-- The plot kind used by the renderer: the caller's explicit kind when
given, otherwise `pick_plottype` on the (squeezed) data. -/
def resolvePlottype (d : Squeezed) (plottypeOpt : Option String) :
    Except PyErr String :=
  match plottypeOpt with
  | some pt => Except.ok pt
  | none => pick_plottype_sq d

/-- The renderer pipeline after the squeeze: resolve the kind, orientation
and label format, compute the colors, decide sorting eligibility, sort, then
dispatch on the kind, recording every backend call.  Waterfall kinds on
frame input raise `TypeError`: the label call iterates the frame, yielding
column-name strings, and adding the numeric offset to a string fails.
Scalars never reach the dispatch: `define_colors` already rejected them. -/
def micompanyifyCore (d : Squeezed) (highlight : Highlight)
    (plottypeOpt : Option String) (ascending : Option Bool)
    (strfmtOpt : Option String) : Except PyErr MicOutput := do
  let plottype ← resolvePlottype d plottypeOpt
  let orient := if plottype ∈ ["bar_timeseries", "line_timeseries"] then "h"
    else "v"
  let strfmt := match strfmtOpt with
    | some fmt => fmt
    | none => if isPctAllSq d then ".1%" else ".2f"
  let color ← define_colors_sq highlight d plottype
  let ascending := if plottype ∈ noSortKinds ∨ isSeriesSq d = false then none
    else ascending
  let d := match ascending, d with
    | some b, .series s => Squeezed.series ⟨sort_values s.entries b, s.timeIndex⟩
    | _, _ => d
  if plottype = "bar" ∨ plottype = "bar_timeseries" then
    match d with
    | .series s =>
        Except.ok (mkOut plottype orient strfmt color d none none
          [⟨s.vals, none, strfmt, orient, "black", none, none⟩])
    | .frame f =>
        Except.ok (mkOut plottype orient strfmt color d none none
          (f.cols.enum.map (fun p =>
            ⟨p.2.2, none, strfmt, orient, "black", some (p.1 : ℤ),
             some (f.cols.length : ℤ)⟩)))
    | .scalar _ => Except.error .typeError
  else if plottype = "waterfall" ∨ plottype = "waterfall_buildup" then
    match d with
    | .series s =>
        let r := plot_waterfall s.entries (some color)
          (plottype = "waterfall_buildup")
        Except.ok (mkOut plottype orient strfmt r.2.2
          (.series ⟨r.1, s.timeIndex⟩) (some r.2.1) none
          [⟨(r.1.map Prod.snd).zipWith (· + ·) (r.2.1.map Prod.snd),
            some (r.1.map Prod.snd), strfmt, orient, "black", none, none⟩])
    | _ => Except.error .typeError
  else if plottype = "line_timeseries" then
    Except.ok (mkOut plottype orient strfmt color d none none [])
  else if plottype = "scatter" then
    match d with
    | .frame f =>
        match f.cols with
        | c0 :: c1 :: rest =>
            let size := match rest with
              | c2 :: _ => some c2.2
              | [] => none
            Except.ok (mkOut plottype orient strfmt color d none
              (some (c0.2, c1.2, size)) [])
        | _ => Except.error .indexError
    | .series _ => Except.error .indexingError
    | .scalar _ => Except.error .typeError
  else if plottype = "composition_comparison" then
    match d with
    | .frame f =>
        match highlight with
        | .list _ => Except.error .typeError
        | .int h => do
            let j ← pyRow f.index.length h
            let pos := f.cols.map (fun c =>
              (((shiftFill (cumsum c.2)).getD j 0) + ((cumsum c.2).getD j 0)) / 2)
            let disp := f.cols.map (fun c => c.2.getD j 0)
            Except.ok (mkOut plottype orient strfmt color d none none
              [⟨pos, some disp, strfmt, orient, "white", none, none⟩])
    | .series _ =>
        match highlight with
        | .list _ => Except.error .typeError
        | .int _ => Except.error .indexingError
    | .scalar _ => Except.error .typeError
  else if plottype = "piechart" then Except.error .typeError
  else Except.error .notImplementedError

/-- `micompanyify`: squeeze the input (a single-column frame becomes its
column), then run the renderer pipeline. -/
def micompanyify (data : PData) (highlight : Highlight)
    (plottypeOpt : Option String) (ascending : Option Bool)
    (strfmtOpt : Option String) : Except PyErr MicOutput :=
  micompanyifyCore (squeeze data) highlight plottypeOpt ascending strfmtOpt

/-- The color sequence of a successful render. -/
def outColors : Except PyErr MicOutput → Option (List Color)
  | .ok o => some o.color
  | .error _ => none

/-- The category order of a successful series render. -/
def outCats : Except PyErr MicOutput → Option (List String)
  | .ok o =>
      match o.plotted with
      | .series s => some (s.entries.map Prod.fst)
      | _ => none
  | .error _ => none

/-- The categories that end up drawn in the highlight color, pairing the
plotted category order with the color sequence position by position. -/
def outHighlightedCats : Except PyErr MicOutput → Option (List String)
  | .ok o =>
      match o.plotted with
      | .series s => some (((s.entries.map Prod.fst).zip o.color).filterMap
          (fun p => if p.2 = HIGHLIGHT_COLOR then some p.1 else none))
      | _ => none
  | .error _ => none

/-- The single column of a frame, viewed as the series `df[col]`: the
frame's row index paired with the column's values, inheriting the index's
`DatetimeIndex` flag. -/
def colAsSeries (index : List String) (timeIndex : Bool) (vals : List ℚ) :
    PSeries :=
  ⟨index.zip vals, timeIndex⟩

/-- C10: a well-formed single-column table renders exactly like its column
rendered as a series — `squeeze` maps both inputs to the same value (the
column series, or the same bare scalar when there is a single row), and the
whole pipeline is a function of the squeezed data, so kind selection,
colors, sorting and label calls all agree. -/
theorem micompanyify_single_column_frame (index : List String) (t : Bool)
    (nm : String) (vals : List ℚ) (hl : Highlight) (pt : Option String)
    (asc : Option Bool) (fmt : Option String)
    (hw : vals.length = index.length) :
    micompanyify (.frame ⟨index, t, [(nm, vals)]⟩) hl pt asc fmt
      = micompanyify (.series (colAsSeries index t vals)) hl pt asc fmt := by
  unfold micompanyify
  congr 1
  unfold squeeze colAsSeries
  cases index with
  | nil =>
      cases vals with
      | nil => rfl
      | cons v vs => simp at hw
  | cons i0 irest =>
      cases vals with
      | nil => simp at hw
      | cons v vs =>
          cases irest with
          | nil =>
              cases vs with
              | nil => rfl
              | cons w ws =>
                  simp only [List.length_cons, List.length_nil] at hw
                  omega
          | cons i1 irest2 =>
              cases vs with
              | nil =>
                  simp only [List.length_cons, List.length_nil] at hw
                  omega
              | cons w ws => rfl

/-- C10 witness: a concrete two-row single-column frame and its column
render identically. -/
theorem micompanyify_single_column_frame_wit :
    ([1, 2] : List ℚ).length = (["x", "y"] : List String).length
    ∧ micompanyify (.frame ⟨["x", "y"], false, [("A", [1, 2])]⟩) (.int (-1))
        (some "bar") (some true) (some ".2f")
      = micompanyify (.series (colAsSeries ["x", "y"] false [1, 2])) (.int (-1))
        (some "bar") (some true) (some ".2f") :=
  ⟨by decide,
   micompanyify_single_column_frame ["x", "y"] false "A" [1, 2] (.int (-1))
     (some "bar") (some true) (some ".2f") (by decide)⟩

theorem insertBy_perm (le : (String × ℚ) → (String × ℚ) → Bool)
    (e : String × ℚ) : ∀ l, (insertBy le e l).Perm (e :: l) := by
  intro l
  induction l with
  | nil => exact List.Perm.refl _
  | cons f t ih =>
      simp only [insertBy]
      split
      · exact List.Perm.refl _
      · exact (ih.cons f).trans (List.Perm.swap e f t)

theorem sortBy_perm (le : (String × ℚ) → (String × ℚ) → Bool) :
    ∀ l, (sortBy le l).Perm l := by
  intro l
  induction l with
  | nil => exact List.Perm.refl _
  | cons e t ih => exact (insertBy_perm le e (sortBy le t)).trans (ih.cons e)

theorem insertBy_pairwise (le : (String × ℚ) → (String × ℚ) → Bool)
    (htot : ∀ a b, le a b = true ∨ le b a = true)
    (htr : ∀ a b c, le a b = true → le b c = true → le a c = true)
    (e : String × ℚ) :
    ∀ l, l.Pairwise (fun a b => le a b = true) →
      (insertBy le e l).Pairwise (fun a b => le a b = true) := by
  intro l
  induction l with
  | nil => intro _; simp [insertBy]
  | cons f t ih =>
      intro hp
      rcases List.pairwise_cons.mp hp with ⟨hf, ht⟩
      by_cases hef : le e f = true
      · simp only [insertBy, if_pos hef]
        refine List.pairwise_cons.mpr ⟨?_, hp⟩
        intro b hb
        rcases List.mem_cons.mp hb with rfl | hb
        · exact hef
        · exact htr e f b hef (hf b hb)
      · simp only [insertBy, if_neg hef]
        refine List.pairwise_cons.mpr ⟨?_, ih ht⟩
        intro b hb
        have hb' := (insertBy_perm le e t).mem_iff.mp hb
        rcases List.mem_cons.mp hb' with rfl | hb'
        · rcases htot b f with h | h
          · exact absurd h hef
          · exact h
        · exact hf b hb'

theorem sortBy_pairwise (le : (String × ℚ) → (String × ℚ) → Bool)
    (htot : ∀ a b, le a b = true ∨ le b a = true)
    (htr : ∀ a b c, le a b = true → le b c = true → le a c = true) :
    ∀ l, (sortBy le l).Pairwise (fun a b => le a b = true) := by
  intro l
  induction l with
  | nil => simp [sortBy]
  | cons e t ih => exact insertBy_pairwise le htot htr e _ ih

/-- On a series of pairwise-distinct values, the descending sort is exactly
the reversed ascending sort: both are strictly monotone arrangements of the
same entries, and a strictly sorted arrangement is unique. -/
theorem sort_values_desc_reverse (entries : List (String × ℚ))
    (hd : (entries.map Prod.snd).Pairwise (fun a b => a ≠ b)) :
    sort_values entries false = (sort_values entries true).reverse := by
  have hdp : entries.Pairwise (fun a b : String × ℚ => a.2 ≠ b.2) :=
    List.pairwise_map.mp hd
  have hne_symm : ∀ {x y : String × ℚ}, x.2 ≠ y.2 → y.2 ≠ x.2 :=
    fun h => h.symm
  rw [show sort_values entries false
        = sortBy (fun a b => decide (b.2 ≤ a.2)) entries from rfl,
      show sort_values entries true
        = sortBy (fun a b => decide (a.2 ≤ b.2)) entries from rfl]
  set leA : (String × ℚ) → (String × ℚ) → Bool :=
    fun a b => decide (a.2 ≤ b.2) with hleA
  set leD : (String × ℚ) → (String × ℚ) → Bool :=
    fun a b => decide (b.2 ≤ a.2) with hleD
  have permA := sortBy_perm leA entries
  have permD := sortBy_perm leD entries
  have hdA : (sortBy leA entries).Pairwise (fun a b : String × ℚ => a.2 ≠ b.2) :=
    (permA.pairwise_iff hne_symm).mpr hdp
  have hdD : (sortBy leD entries).Pairwise (fun a b : String × ℚ => a.2 ≠ b.2) :=
    (permD.pairwise_iff hne_symm).mpr hdp
  have hpA : (sortBy leA entries).Pairwise (fun a b => leA a b = true) :=
    sortBy_pairwise leA
      (fun a b => by simp only [hleA, decide_eq_true_eq]; exact le_total a.2 b.2)
      (fun a b c hab hbc => by
        simp only [hleA, decide_eq_true_eq] at hab hbc ⊢
        exact le_trans hab hbc) entries
  have hpD : (sortBy leD entries).Pairwise (fun a b => leD a b = true) :=
    sortBy_pairwise leD
      (fun a b => by simp only [hleD, decide_eq_true_eq]; exact le_total b.2 a.2)
      (fun a b c hab hbc => by
        simp only [hleD, decide_eq_true_eq] at hab hbc ⊢
        exact le_trans hbc hab) entries
  have strictA : (sortBy leA entries).Pairwise
      (fun a b : String × ℚ => a.2 < b.2) := by
    refine (hpA.and hdA).imp ?_
    intro a b hab
    have h1 : a.2 ≤ b.2 := by
      have := hab.1; simp only [hleA, decide_eq_true_eq] at this; exact this
    exact lt_of_le_of_ne h1 hab.2
  have strictDrev : ((sortBy leD entries).reverse).Pairwise
      (fun a b : String × ℚ => a.2 < b.2) := by
    rw [List.pairwise_reverse]
    refine (hpD.and hdD).imp ?_
    intro a b hab
    have h1 : b.2 ≤ a.2 := by
      have := hab.1; simp only [hleD, decide_eq_true_eq] at this; exact this
    exact lt_of_le_of_ne h1 (hne_symm hab.2)
  haveI : IsAntisymm (String × ℚ) (fun a b : String × ℚ => a.2 < b.2) :=
    ⟨fun a b h1 h2 => absurd h2 (not_lt.mpr (le_of_lt h1))⟩
  have heq : (sortBy leD entries).reverse = sortBy leA entries :=
    List.eq_of_perm_of_sorted
      (((sortBy leD entries).reverse_perm.trans permD).trans permA.symm)
      strictDrev strictA
  rw [← heq, List.reverse_reverse]

theorem squeeze_series_of_ne_one (s : PSeries) (h : s.entries.length ≠ 1) :
    squeeze (.series s) = .series s := by
  obtain ⟨entries, ti⟩ := s
  cases entries with
  | nil => rfl
  | cons a t =>
      cases t with
      | nil => simp at h
      | cons b t2 => rfl

theorem micompanyifyCore_bar_series (s : PSeries) (hl : Highlight) (fmt : String)
    (cs : List Color) (b : Bool)
    (hcol : define_colors hl (.series s) "bar" = .ok cs) :
    micompanyifyCore (.series s) hl (some "bar") (some b) (some fmt)
      = Except.ok (mkOut "bar" "v" fmt cs
          (.series ⟨sort_values s.entries b, s.timeIndex⟩) none none
          [⟨(⟨sort_values s.entries b, s.timeIndex⟩ : PSeries).vals, none, fmt,
            "v", "black", none, none⟩]) := by
  have h1 : micompanyifyCore (.series s) hl (some "bar") (some b) (some fmt)
      = (define_colors hl (.series s) "bar" >>= fun color =>
          Except.ok (mkOut "bar" "v" fmt color
            (.series ⟨sort_values s.entries b, s.timeIndex⟩) none none
            [⟨(⟨sort_values s.entries b, s.timeIndex⟩ : PSeries).vals, none, fmt,
              "v", "black", none, none⟩])) := rfl
  rw [h1, hcol, except_ok_bind]

/-- C1 (amended): for a series of pairwise-distinct values rendered as a
plain bar chart, sorting ascending and sorting descending yield exactly
reversed category orders — but the color sequence is identical in the two
renders: `define_colors` runs before the sort and the colors are never
permuted with the data, so the highlighted color stays attached to a
position, not to the underlying category value. -/
theorem micompanyify_sort_reverses_categories_colors_fixed (s : PSeries)
    (hl : Highlight) (fmt : String) (cs : List Color)
    (h2 : 2 ≤ s.entries.length)
    (hd : (s.entries.map Prod.snd).Pairwise (fun a b => a ≠ b))
    (hcol : define_colors hl (.series s) "bar" = .ok cs) :
    outCats (micompanyify (.series s) hl (some "bar") (some false) (some fmt))
      = (outCats (micompanyify (.series s) hl (some "bar") (some true)
          (some fmt))).map List.reverse
    ∧ outColors (micompanyify (.series s) hl (some "bar") (some false)
        (some fmt)) = some cs
    ∧ outColors (micompanyify (.series s) hl (some "bar") (some true)
        (some fmt)) = some cs := by
  have hsq := squeeze_series_of_ne_one s (by omega)
  unfold micompanyify
  rw [hsq, micompanyifyCore_bar_series s hl fmt cs false hcol,
      micompanyifyCore_bar_series s hl fmt cs true hcol]
  refine ⟨?_, rfl, rfl⟩
  simp only [outCats, mkOut, Option.map]
  rw [sort_values_desc_reverse s.entries hd, List.map_reverse]

/-- C1 witness: the amended statement instantiated on a concrete 3-entry
series with distinct values and highlight 0. -/
theorem micompanyify_sort_reverses_wit :
    2 ≤ sampleSeries3.entries.length
    ∧ (sampleSeries3.entries.map Prod.snd).Pairwise (fun a b => a ≠ b)
    ∧ define_colors (.int 0) (.series sampleSeries3) "bar"
        = .ok [HIGHLIGHT_COLOR, Color.lightgray, Color.lightgray]
    ∧ (outCats (micompanyify (.series sampleSeries3) (.int 0) (some "bar")
          (some false) (some ".2f"))
        = (outCats (micompanyify (.series sampleSeries3) (.int 0) (some "bar")
            (some true) (some ".2f"))).map List.reverse
      ∧ outColors (micompanyify (.series sampleSeries3) (.int 0) (some "bar")
          (some false) (some ".2f"))
          = some [HIGHLIGHT_COLOR, Color.lightgray, Color.lightgray]
      ∧ outColors (micompanyify (.series sampleSeries3) (.int 0) (some "bar")
          (some true) (some ".2f"))
          = some [HIGHLIGHT_COLOR, Color.lightgray, Color.lightgray]) :=
  ⟨by decide, by decide, by decide,
   micompanyify_sort_reverses_categories_colors_fixed sampleSeries3 (.int 0)
     ".2f" [HIGHLIGHT_COLOR, Color.lightgray, Color.lightgray]
     (by decide) (by decide) (by decide)⟩

/-- C1 counterexample: on the series `a=1, b=3, c=2` with highlight 0, the
ascending and descending renders have exactly reversed category orders but
the *same* color sequence (`[purple, lightgray, lightgray]` both times), so
the highlighted category is `a` ascending and `b` descending — the color
tags are *not* permuted with the categories and the highlight does not stay
attached to the same category value. -/
theorem micompanyify_sort_highlight_follows_position_cx :
    outCats (micompanyify (.series sampleSeries3) (.int 0) (some "bar")
        (some true) (some ".2f")) = some ["a", "c", "b"]
    ∧ outCats (micompanyify (.series sampleSeries3) (.int 0) (some "bar")
        (some false) (some ".2f")) = some ["b", "c", "a"]
    ∧ outColors (micompanyify (.series sampleSeries3) (.int 0) (some "bar")
        (some true) (some ".2f"))
        = some [HIGHLIGHT_COLOR, Color.lightgray, Color.lightgray]
    ∧ outColors (micompanyify (.series sampleSeries3) (.int 0) (some "bar")
        (some false) (some ".2f"))
        = some [HIGHLIGHT_COLOR, Color.lightgray, Color.lightgray]
    ∧ outHighlightedCats (micompanyify (.series sampleSeries3) (.int 0)
        (some "bar") (some true) (some ".2f"))
      ≠ outHighlightedCats (micompanyify (.series sampleSeries3) (.int 0)
        (some "bar") (some false) (some ".2f")) :=
  ⟨by decide, by decide, by decide, by decide, by decide⟩

/-- The index labels of the object the pipeline holds after the squeeze. -/
def sqLabels : Squeezed → List String
  | .scalar _ => []
  | .series s => s.entries.map Prod.fst
  | .frame f => f.index

def colorsOk (x : Except PyErr (List Color)) : Bool :=
  match x with
  | .ok _ => true
  | .error _ => false

/-- Whether the squeezed object still shares its value buffer with the
caller's object, under pre-copy-on-write pandas (contemporaneous with this
module): `squeeze()` returns `self.iloc[...]`, a fresh wrapper whose
all-slice axes view the same buffer — so a series stays shared, as does a
frame viewed whole or through its single column; collapsing the single row
of a (generally mixed-dtype) multi-column frame materializes a copy. -/
def squeezeShares : PData → Bool
  | .series _ => true
  | .frame f =>
      match f.cols with
      | [_] => true
      | _ => decide (f.index.length ≠ 1)

/-- The caller-visible effect of `plot_waterfall`'s `data.loc['total'] =
data.sum()` when it *overwrites* an existing `'total'` row through a shared
buffer: every `'total'`-labeled row receives the total (computed before the
overwrite — the plain sum of the values; per column for a frame).
Enlargement — no existing `'total'` row — rebuilds only the local object's
internals and never reaches this function. -/
def callerWriteThrough : PData → PData
  | .series s =>
      .series ⟨s.entries.map (fun e =>
        if e.1 == "total" then (e.1, (s.entries.map Prod.snd).sum) else e),
        s.timeIndex⟩
  | .frame f =>
      .frame ⟨f.index, f.timeIndex,
        f.cols.map (fun c =>
          (c.1, (f.index.zip c.2).map (fun p =>
            if p.1 == "total" then c.2.sum else p.2)))⟩

/-- The content of the caller's object after `micompanyify` returns or
raises, following the renderer's data flow: `squeeze` hands the pipeline a
fresh wrapper (a view), `sort_values` returns a detached copy, and the only
in-place mutation in the module is `plot_waterfall`'s `.loc['total']`
assignment.  It reaches the caller's buffer exactly when the pipeline gets
to a waterfall branch (kind resolved, colors computed without error) with
sorting disabled, the wrapper still shares the buffer, and a `'total'` label
already exists (overwrite rather than enlargement). -/
def micompanyifyCallerAfter (data : PData) (highlight : Highlight)
    (plottypeOpt : Option String) (ascending : Option Bool) : PData :=
  match resolvePlottype (squeeze data) plottypeOpt with
  | .error _ => data
  | .ok plottype =>
    match squeeze data with
    | .scalar _ => data
    | _ =>
      if colorsOk (define_colors_sq highlight (squeeze data) plottype) then
        if plottype = "waterfall" ∨ plottype = "waterfall_buildup" then
          if (if plottype ∈ noSortKinds ∨ isSeriesSq (squeeze data) = false
              then none else ascending) = none then
            if squeezeShares data ∧ "total" ∈ sqLabels (squeeze data) then
              callerWriteThrough data
            else data
          else data
        else data
      else data

/-- C9 (amended): the caller's input is never mutated as long as the
squeezed data carries no `'total'` label — covering the claim's "internally
appended total row", which is a `.loc` enlargement that rebuilds only the
renderer's local object — and, for series-shaped data, also whenever sorting
is enabled (`ascending ≠ None`), since `sort_values` detaches the buffer
before the waterfall mutation.  With sorting disabled and an existing
`'total'` row, the waterfall overwrite is caller-visible (counterexample). -/
theorem micompanyify_caller_unchanged (data : PData) (hl : Highlight)
    (pt : Option String) (asc : Option Bool) :
    ("total" ∉ sqLabels (squeeze data) →
      micompanyifyCallerAfter data hl pt asc = data)
    ∧ (isSeriesSq (squeeze data) = true → asc ≠ none →
      micompanyifyCallerAfter data hl pt asc = data) := by
  constructor
  · intro hnt
    unfold micompanyifyCallerAfter
    split
    · rfl
    · split
      · rfl
      · split
        · split
          · split
            · split
              · split
                · rename_i hcond
                  exact absurd hcond.2 hnt
                · rfl
              · rfl
            · split
              · split
                · rename_i hcond
                  exact absurd hcond.2 hnt
                · rfl
              · rfl
          · rfl
        · rfl
  · intro hser hasc
    unfold micompanyifyCallerAfter
    split
    · rfl
    · split
      · rfl
      · split
        · split
          · rename_i hwf
            split
            · rename_i hcond
              exfalso
              rcases hcond with hmem | hfalse
              · rcases hwf with h1 | h1 <;> rw [h1] at hmem <;>
                  simp [noSortKinds] at hmem
              · rw [hser] at hfalse
                exact Bool.noConfusion hfalse
            all_goals rfl
          · rfl
        · rfl

/-- C9 witness: a series with no `'total'` label is untouched by the caller,
even for the waterfall kind with sorting disabled (the total row is a `.loc`
enlargement on the renderer's own object). -/
theorem micompanyify_caller_unchanged_wit :
    "total" ∉ sqLabels (squeeze (.series sampleSeries3))
    ∧ micompanyifyCallerAfter (.series sampleSeries3) (.int (-1))
        (some "waterfall") none = .series sampleSeries3 :=
  ⟨by decide,
   (micompanyify_caller_unchanged (.series sampleSeries3) (.int (-1))
      (some "waterfall") none).1 (by decide)⟩

/-- C9 counterexample: with kind `'waterfall'`, sorting disabled
(`ascending=None`), and a caller series that already has a `'total'` row,
`data.loc['total'] = data.sum()` overwrites the existing row through the
buffer shared with the caller: afterwards the caller reads `total = 3` (the
grand total) instead of its original `2` — the input was mutated. -/
theorem micompanyify_caller_mutation_cx :
    micompanyifyCallerAfter (.series ⟨[("a", 1), ("total", 2)], false⟩)
        (.int (-1)) (some "waterfall") none
      = .series ⟨[("a", 1), ("total", 3)], false⟩
    ∧ micompanyifyCallerAfter (.series ⟨[("a", 1), ("total", 2)], false⟩)
        (.int (-1)) (some "waterfall") none
      ≠ .series ⟨[("a", 1), ("total", 2)], false⟩ := by
  have h : micompanyifyCallerAfter (.series ⟨[("a", 1), ("total", 2)], false⟩)
      (.int (-1)) (some "waterfall") none
      = .series ⟨[("a", 1), ("total", 3)], false⟩ := by
    norm_num [micompanyifyCallerAfter, resolvePlottype, squeeze,
      define_colors_sq, define_colors, pyListSet, colorsOk, noSortKinds,
      isSeriesSq, squeezeShares, sqLabels, callerWriteThrough, PData.len,
      show ¬ ("a" = "total") from by decide]
  refine ⟨h, ?_⟩
  rw [h]
  intro hc
  have := congrArg (fun d => match d with
    | PData.series s => s.entries.map Prod.snd
    | PData.frame _ => []) hc
  simp at this

end Micplot
